import Mathlib

/-- Outcome of a browser `fetch` call as observed by the panel code: the
promise either rejects (network error) or resolves to a response carrying
an HTTP success flag (`response.ok`) and a body that may or may not parse
as the expected JSON value (`response.json()` throwing is `none`). -/
inductive FetchOutcome (α : Type) where
  | networkError : FetchOutcome α
  | response (ok : Bool) (body : Option α) : FetchOutcome α

namespace Msg

/-- The `Message` record of `src/src/components/MessagesSection.tsx`. -/
structure Message where
  _id : String
  name : String
  email : String
  subject : String
  message : String
  createdAt : String
  isRead : Bool
  isStarred : Bool
  isArchived : Bool
deriving DecidableEq

/-- The filter state of `MessagesSection.tsx` (line 31): only
`'all' | 'starred' | 'archived'`; this component has no `'unread'` filter. -/
inductive Filter where
  | all : Filter
  | starred : Filter
  | archived : Filter
deriving DecidableEq

/-- `filteredMessages` of `MessagesSection.tsx` (lines 198-202): filters the
local list by the current filter tab only (search is sent to the server as a
query parameter, not applied client-side in this component). -/
def filteredMessages (messages : List Message) (filter : Filter) : List Message :=
  messages.filter fun msg =>
    match filter with
    | Filter.starred => msg.isStarred
    | Filter.archived => msg.isArchived
    | Filter.all => true

/-- Local-state effect of `updateMessage` (lines 101-103) once the server has
answered 2xx: every list entry whose `_id` matches is replaced by the record
the server returned. -/
def applyServerUpdate (messages : List Message) (id : String) (updated : Message) :
    List Message :=
  messages.map fun msg => if msg._id == id then updated else msg

/-- `toggleRead` (lines 160-169) with the server echoing the requested
partial update: the found message is re-sent with `isRead` negated, and the
echoed record replaces the matching entry. -/
def toggleRead (messages : List Message) (id : String) : List Message :=
  match messages.find? (fun m => m._id == id) with
  | some message => applyServerUpdate messages id { message with isRead := !message.isRead }
  | none => messages

/-- `toggleStar` (lines 171-176) under the same echo semantics. -/
def toggleStar (messages : List Message) (id : String) : List Message :=
  match messages.find? (fun m => m._id == id) with
  | some message => applyServerUpdate messages id { message with isStarred := !message.isStarred }
  | none => messages

/-- `toggleArchive` (lines 178-180): the caller supplies the target value
(`archive`), and the echoed record replaces the matching entry. -/
def toggleArchive (messages : List Message) (id : String) (archive : Bool) : List Message :=
  match messages.find? (fun m => m._id == id) with
  | some message => applyServerUpdate messages id { message with isArchived := archive }
  | none => messages

/-- The archive toggle as driven from the detail panel (lines 405-423): the
button passes `!selectedMessage.isArchived`, i.e. the negation of the value
currently held for the selected record. -/
def archiveToggleFromPanel (messages : List Message) (id : String) : List Message :=
  match messages.find? (fun m => m._id == id) with
  | some message => toggleArchive messages id (!message.isArchived)
  | none => messages

/-- Common shape of the three message toggles above: find the record, send a
partial update computed from it by `g`, receive the echo and apply it. -/
def toggleWith (g : Message → Message) (messages : List Message) (id : String) :
    List Message :=
  match messages.find? (fun m => m._id == id) with
  | some message => applyServerUpdate messages id (g message)
  | none => messages

/-- `handleDelete` (lines 127-157). Inputs are the local list, the current
selection, the pending `messageToDelete` id and whether the DELETE response
was 2xx; outputs the new list, the new selection, and whether an error toast
was raised. On early return (`messageToDelete` null) and on failure the list
and selection are untouched. -/
def handleDelete (messages : List Message) (selectedMessage : Option Message)
    (messageToDelete : Option String) (respOk : Bool) :
    List Message × Option Message × Bool :=
  match messageToDelete with
  | none => (messages, selectedMessage, false)
  | some mtd =>
    if respOk then
      (messages.filter (fun msg => !(msg._id == mtd)),
       match selectedMessage with
       | some sel => if sel._id == mtd then none else some sel
       | none => none,
       false)
    else
      (messages, selectedMessage, true)

/-- Local-state effect of `fetchMessages` (lines 40-63): the response is
checked with `response.ok` before `response.json()` is read; any thrown error
(network, non-2xx, parse) lands in the catch block, leaving the list as it
was. -/
def fetchMessages (prev : List Message) (outcome : FetchOutcome (List Message)) :
    List Message :=
  match outcome with
  | FetchOutcome.networkError => prev
  | FetchOutcome.response ok body =>
    if ok then
      match body with
      | some data => data
      | none => prev
    else prev

end Msg

namespace LegacyMsg

/-- The `Message` record of the unnamed earlier Messages panel variant
(`src/unnamed/part_000`). -/
structure Message where
  id : String
  name : String
  email : String
  subject : String
  message : String
  timestamp : String
  isRead : Bool
  isStarred : Bool
  isArchived : Bool
deriving DecidableEq

/-- The filter state of the `part_000` variant (line 77):
`'all' | 'unread' | 'starred' | 'archived'`. -/
inductive Filter where
  | all : Filter
  | unread : Filter
  | starred : Filter
  | archived : Filter
deriving DecidableEq

/-- The character sequence of a string with every character lowercased,
modelling JavaScript `s.toLowerCase()`. -/
def lowerChars (s : String) : List Char :=
  s.toList.map Char.toLower

/-- Models JavaScript `field.toLowerCase().includes(searchTerm.toLowerCase())`:
the lowered search term occurs as a contiguous substring of the lowered
field (the empty string is contained in everything, as in JS). -/
def containsLower (field searchTerm : String) : Bool :=
  decide (lowerChars searchTerm <:+: lowerChars field)

/-- The `matchesSearch` conjunct of `filteredMessages` in `part_000`
(lines 118-121). -/
def matchesSearch (msg : Message) (searchTerm : String) : Bool :=
  containsLower msg.name searchTerm || containsLower msg.email searchTerm ||
    containsLower msg.subject searchTerm || containsLower msg.message searchTerm

/-- `filteredMessages` of `part_000` (lines 117-135): search must match, then
`unread` keeps unread unarchived, `starred` keeps starred unarchived,
`archived` keeps archived, and the default (`all`) keeps unarchived. -/
def filteredMessages (messages : List Message) (filter : Filter) (searchTerm : String) :
    List Message :=
  messages.filter fun msg =>
    if !(matchesSearch msg searchTerm) then false
    else
      match filter with
      | Filter.unread => !msg.isRead && !msg.isArchived
      | Filter.starred => msg.isStarred && !msg.isArchived
      | Filter.archived => msg.isArchived
      | Filter.all => !msg.isArchived

/-- `toggleRead` of `part_000` (lines 93-97): a purely local flip. -/
def toggleRead (messages : List Message) (id : String) : List Message :=
  messages.map fun msg =>
    if msg.id == id then { msg with isRead := !msg.isRead } else msg

/-- `toggleStar` of `part_000` (lines 99-103). -/
def toggleStar (messages : List Message) (id : String) : List Message :=
  messages.map fun msg =>
    if msg.id == id then { msg with isStarred := !msg.isStarred } else msg

/-- `toggleArchive` of `part_000` (lines 105-110). -/
def toggleArchive (messages : List Message) (id : String) : List Message :=
  messages.map fun msg =>
    if msg.id == id then { msg with isArchived := !msg.isArchived } else msg

/-- `deleteMessage` of `part_000` (lines 112-115). -/
def deleteMessage (messages : List Message) (id : String) : List Message :=
  messages.filter fun msg => !(msg.id == id)

end LegacyMsg

namespace Sk

/-- The `Skill` record of `src/src/components/SkillsSection.tsx`. The data
model keeps `order` as a non-negative integer (dense 0..N-1 sort key), so it
is carried as a natural number; the source's sort comparator
`(a, b) => a.order - b.order` then orders by `a.order ≤ b.order`. -/
structure Skill where
  _id : String
  name : String
  iconUrl : Option String
  proficiency : Int
  featured : Bool
  order : Nat
deriving DecidableEq

/-- The `direction` argument of `moveSkill`. -/
inductive Direction where
  | up : Direction
  | down : Direction
deriving DecidableEq

/-- The sort step of `moveSkill`: `newSkills.sort((a, b) => a.order - b.order)`,
a comparison sort by the `order` field. -/
def sortSkills (l : List Skill) : List Skill :=
  List.insertionSort (fun a b => a.order ≤ b.order) l

/-- Core of `moveSkill` (`SkillsSection.tsx` lines 159-193): find the skill,
bail out (`none`) when it is absent or the move would leave the array
(`newIndex < 0 || newIndex >= skills.length`), otherwise swap the `order`
fields of the two adjacent entries and re-sort by `order`. The `some` result
is the `newSkills` list passed to `setSkills` and to the reorder POST. -/
def moveSkillCore (skills : List Skill) (id : String) (direction : Direction) :
    Option (List Skill) :=
  let currentIndex := skills.findIdx (fun skill => skill._id == id)
  if hc : currentIndex < skills.length then
    let newIndex : Int :=
      match direction with
      | Direction.up => (currentIndex : Int) - 1
      | Direction.down => (currentIndex : Int) + 1
    if hn : 0 ≤ newIndex ∧ newIndex < (skills.length : Int) then
      let ni := newIndex.toNat
      let a := skills.get ⟨currentIndex, hc⟩
      let b := skills.get ⟨ni, by omega⟩
      some (sortSkills
        ((skills.set currentIndex { a with order := b.order }).set ni
          { b with order := a.order }))
    else none
  else none

/-- The list held locally after `moveSkill` runs its synchronous part:
the re-sorted swap, or the original list on an early return. -/
def moveSkillLocal (skills : List Skill) (id : String) (direction : Direction) :
    List Skill :=
  (moveSkillCore skills id direction).getD skills

/-- The `orderedIds` payload posted to `/api/skills/reorder`, `none` when the
early returns fire and no request is issued. -/
def moveSkillRequest (skills : List Skill) (id : String) (direction : Direction) :
    Option (List String) :=
  (moveSkillCore skills id direction).map (List.map (fun skill => skill._id))

/-- Full `moveSkill` including the persistence attempt: the local list is set
to `newSkills` before the POST; the catch block (entered only when `fetch`
itself rejects, since `response.ok` is never inspected) re-fetches the
collection from the server. Returns the final local list and whether a
rollback re-fetch happened. -/
def moveSkill (skills : List Skill) (id : String) (direction : Direction)
    (outcome : FetchOutcome Unit) (serverSkills : List Skill) :
    List Skill × Bool :=
  match moveSkillCore skills id direction with
  | none => (skills, false)
  | some newSkills =>
    match outcome with
    | FetchOutcome.networkError => (serverSkills, true)
    | FetchOutcome.response _ _ => (newSkills, false)

/-- Local-state effect of `fetchSkills` (`SkillsSection.tsx` lines 34-50):
`response.ok` is never checked, so any response whose body parses as JSON is
applied via `setSkills`, 2xx or not; only a rejected fetch or a body that
fails to parse reaches the catch block and leaves the list as it was. -/
def fetchSkills (prev : List Skill) (outcome : FetchOutcome (List Skill)) :
    List Skill :=
  match outcome with
  | FetchOutcome.networkError => prev
  | FetchOutcome.response _ body =>
    match body with
    | some data => data
    | none => prev

/-- `handleDelete` of `SkillsSection.tsx` (lines 135-157): a native confirm
dialog guards the request; on 2xx the record is filtered out, otherwise the
catch block raises an error toast and the list is untouched. Returns the new
list and whether an error was surfaced. -/
def handleDelete (skills : List Skill) (id : String) (confirmed : Bool)
    (respOk : Bool) : List Skill × Bool :=
  if !confirmed then (skills, false)
  else if respOk then (skills.filter (fun skill => !(skill._id == id)), false)
  else (skills, true)

/-- `moveSkill` of the commented-out earlier variant (`src/unnamed/part_001`
lines 252-291): same early returns, but the orders are reassigned from array
positions (`index === currentIndex ? newIndex : index === newIndex ?
currentIndex : index`) before the same sort. -/
def moveSkillCoreLegacy (skills : List Skill) (id : String) (direction : Direction) :
    Option (List Skill) :=
  let currentIndex := skills.findIdx (fun skill => skill._id == id)
  if currentIndex < skills.length then
    let newIndex : Int :=
      match direction with
      | Direction.up => (currentIndex : Int) - 1
      | Direction.down => (currentIndex : Int) + 1
    if 0 ≤ newIndex ∧ newIndex < (skills.length : Int) then
      let ni := newIndex.toNat
      some (sortSkills
        (skills.mapIdx fun index skill =>
          { skill with
            order := if index = currentIndex then ni
                     else if index = ni then currentIndex else index }))
    else none
  else none

/-- Local result of the legacy `moveSkill`, as for `moveSkillLocal`. -/
def moveSkillLocalLegacy (skills : List Skill) (id : String) (direction : Direction) :
    List Skill :=
  (moveSkillCoreLegacy skills id direction).getD skills

end Sk

namespace Rev

/-- The `Review` record of `src/src/components/ReviewSection.tsx`. -/
structure Review where
  _id : String
  name : String
  position : String
  company : Option String
  rating : Int
  text : String
  projectType : String
  isActive : Bool
  featured : Bool
  order : Int
  createdAt : String
deriving DecidableEq

/-- The review form state (`formData`, lines 30-40): all fields present,
`company` as a plain (possibly empty) string. -/
structure ReviewForm where
  name : String
  position : String
  company : String
  rating : Int
  text : String
  projectType : String
  isActive : Bool
  featured : Bool
  order : Int
deriving DecidableEq

/-- The local validation of `handleSubmit` (lines 117-126): required fields
must be non-empty (JS falsiness of the empty string), then the rating must
lie in 1..5; the first failing check produces its toast message and aborts. -/
def validateReview (f : ReviewForm) : Option String :=
  if f.name = "" ∨ f.position = "" ∨ f.text = "" ∨ f.projectType = "" then
    some "Please fill in all required fields"
  else if f.rating < 1 ∨ f.rating > 5 then
    some "Rating must be between 1 and 5"
  else none

/-- `handleSubmit` in its add-review path (lines 114-151): on validation
failure nothing is sent and the list is untouched; otherwise the POST is
issued and, when the server answers with the created record, it is appended;
a failed request leaves the list unchanged. Returns (request sent, new list,
validation message). -/
def handleSubmitAdd (reviews : List Review) (f : ReviewForm)
    (server : Option Review) : Bool × List Review × Option String :=
  match validateReview f with
  | some err => (false, reviews, some err)
  | none =>
    match server with
    | some newReview => (true, reviews ++ [newReview], none)
    | none => (true, reviews, none)

/-- `toggleActive` (lines 184-197): the flip is delegated to the server's
`/toggle-active` endpoint (a PATCH with no body); the local record then takes
`result.isActive` from the server response, whatever it is. -/
def toggleActive (reviews : List Review) (id : String) (serverIsActive : Bool) :
    List Review :=
  reviews.map fun review =>
    if review._id == id then { review with isActive := serverIsActive } else review

/-- `toggleFeatured` (lines 199-212), same delegation via `/toggle-featured`. -/
def toggleFeatured (reviews : List Review) (id : String) (serverFeatured : Bool) :
    List Review :=
  reviews.map fun review =>
    if review._id == id then { review with featured := serverFeatured } else review

/-- `StarRatingDisplay` (lines 214-230): five stars are rendered and star
index `i` (0-based) is filled exactly when `i < rating`; this counts the
filled ones. -/
def filledStars (rating : Int) : Nat :=
  ((List.range 5).filter fun i => decide ((i : Int) < rating)).length

end Rev

/-- A concrete archived, starred message of the current Messages panel. -/
def archivedStarredMsg : Msg.Message :=
  { _id := "m9", name := "Ada", email := "ada@example.com", subject := "Hi",
    message := "Body", createdAt := "2024-01-01", isRead := true,
    isStarred := true, isArchived := true }

/-- A concrete unread, unarchived message of the current Messages panel. -/
def sampleMsgA : Msg.Message :=
  { _id := "m1", name := "Bea", email := "bea@example.com", subject := "Ping",
    message := "Hello", createdAt := "2024-01-02", isRead := false,
    isStarred := false, isArchived := false }

/-- A concrete unread, unarchived message of the legacy panel variant. -/
def unreadLegacyMsg : LegacyMsg.Message :=
  { id := "l1", name := "Cal", email := "cal@example.com", subject := "Q",
    message := "Question", timestamp := "2024-01-03", isRead := false,
    isStarred := false, isArchived := false }

/-- A concrete archived message of the legacy panel variant. -/
def archivedLegacyMsg : LegacyMsg.Message :=
  { id := "l2", name := "Dana", email := "dana@example.com", subject := "Old",
    message := "Archived", timestamp := "2024-01-04", isRead := true,
    isStarred := true, isArchived := true }

/-- A concrete active review. -/
def sampleActiveReview : Rev.Review :=
  { _id := "r1", name := "Eve", position := "CTO", company := none, rating := 5,
    text := "Great work", projectType := "Web Application", isActive := true,
    featured := false, order := 0, createdAt := "2024-01-05" }

/-- A review form with rating 6 and all required fields present. -/
def rating6Form : Rev.ReviewForm :=
  { name := "Eve", position := "CTO", company := "", rating := 6,
    text := "Great work", projectType := "Web Application", isActive := true,
    featured := false, order := 0 }

/-- A review form with rating 5 and all required fields present. -/
def rating5Form : Rev.ReviewForm :=
  { name := "Eve", position := "CTO", company := "", rating := 5,
    text := "Great work", projectType := "Web Application", isActive := true,
    featured := false, order := 0 }

/-- The server-created review for the rating-5 submission. -/
def createdReview : Rev.Review :=
  { _id := "r2", name := "Eve", position := "CTO", company := none, rating := 5,
    text := "Great work", projectType := "Web Application", isActive := true,
    featured := false, order := 0, createdAt := "2024-01-06" }

/-- Concrete skills with dense orders 0, 1, 2. -/
def skillA : Sk.Skill :=
  { _id := "a", name := "React", iconUrl := none, proficiency := 90,
    featured := true, order := 0 }

/-- Second concrete skill. -/
def skillB : Sk.Skill :=
  { _id := "b", name := "Node", iconUrl := none, proficiency := 80,
    featured := false, order := 1 }

/-- Third concrete skill. -/
def skillC : Sk.Skill :=
  { _id := "c", name := "Python", iconUrl := none, proficiency := 70,
    featured := false, order := 2 }

/-- C9: both panels' search/filter functions are `List.filter` of a pointwise
predicate, hence idempotent: filtering an already-filtered view by the same
criteria returns the same result set. -/
theorem c9_filter_idempotent (msgs : List LegacyMsg.Message) (f : LegacyMsg.Filter)
    (s : String) (msgsB : List Msg.Message) (fB : Msg.Filter) :
    LegacyMsg.filteredMessages (LegacyMsg.filteredMessages msgs f s) f s =
      LegacyMsg.filteredMessages msgs f s ∧
    Msg.filteredMessages (Msg.filteredMessages msgsB fB) fB =
      Msg.filteredMessages msgsB fB := by
  constructor
  · unfold LegacyMsg.filteredMessages
    rw [List.filter_filter]
    simp only [Bool.and_self]
  · unfold Msg.filteredMessages
    rw [List.filter_filter]
    simp only [Bool.and_self]

/-- C6 counterexample: `fetchSkills` never checks `response.ok`, so a non-2xx
response whose body parses as JSON replaces the previously held collection
instead of leaving it intact. -/
theorem c6_counterexample :
    Sk.fetchSkills [skillA] (FetchOutcome.response false (some [])) = [] ∧
    [skillA] ≠ ([] : List Sk.Skill) := by
  exact ⟨rfl, by decide⟩

/-- C6 amended: the Messages load keeps the prior list on network error,
non-2xx, or unparseable body and replaces it only on a 2xx JSON collection;
the Skills load keeps the prior list on network error or unparseable body but
applies any parseable body regardless of the HTTP status. -/
theorem c6_load_failure_amended :
    (∀ (prev : List Msg.Message) (body : Option (List Msg.Message))
      (data : List Msg.Message),
      Msg.fetchMessages prev FetchOutcome.networkError = prev ∧
      Msg.fetchMessages prev (FetchOutcome.response false body) = prev ∧
      Msg.fetchMessages prev (FetchOutcome.response true none) = prev ∧
      Msg.fetchMessages prev (FetchOutcome.response true (some data)) = data) ∧
    (∀ (prev : List Sk.Skill) (ok : Bool) (data : List Sk.Skill),
      Sk.fetchSkills prev FetchOutcome.networkError = prev ∧
      Sk.fetchSkills prev (FetchOutcome.response ok none) = prev ∧
      Sk.fetchSkills prev (FetchOutcome.response ok (some data)) = data) :=
  ⟨fun _ _ _ => ⟨rfl, rfl, rfl, rfl⟩, fun _ _ _ => ⟨rfl, rfl, rfl⟩⟩

/-- C1 counterexample: in the current Messages panel an archived message is
still returned by the `all` and `starred` filters, so archiving does not
remove it from the non-archived views (and this panel has no `unread` filter
at all). -/
theorem c1_counterexample :
    archivedStarredMsg.isArchived = true ∧
    Msg.filteredMessages [archivedStarredMsg] Msg.Filter.all = [archivedStarredMsg] ∧
    Msg.filteredMessages [archivedStarredMsg] Msg.Filter.starred = [archivedStarredMsg] :=
  ⟨rfl, rfl, rfl⟩

/-- An empty search term matches every field, as JS `includes('')` does. -/
theorem LegacyMsg.containsLower_empty (field : String) :
    LegacyMsg.containsLower field "" = true := by
  have h : LegacyMsg.lowerChars "" = ([] : List Char) := rfl
  simp only [LegacyMsg.containsLower, h, decide_eq_true_eq]
  exact List.nil_infix

/-- An empty search term satisfies `matchesSearch` for every message. -/
theorem LegacyMsg.matchesSearch_empty (msg : LegacyMsg.Message) :
    LegacyMsg.matchesSearch msg "" = true := by
  simp [LegacyMsg.matchesSearch, LegacyMsg.containsLower_empty]

/-- C1 amended: the stated behaviour belongs to the legacy Messages panel
variant (`src/unnamed/part_000`): there, with an empty search term, the
`unread` filter returns exactly the messages with `isRead = false` and
`isArchived = false`, and an archived message is absent from every filter
view other than `archived`; the current `MessagesSection.tsx` has no `unread`
filter and keeps archived messages in its `all` and `starred` views. -/
theorem c1_unread_filter_amended :
    (∀ msgs : List LegacyMsg.Message,
      LegacyMsg.filteredMessages msgs LegacyMsg.Filter.unread "" =
        msgs.filter (fun m => !m.isRead && !m.isArchived)) ∧
    (∀ (msgs : List LegacyMsg.Message) (f : LegacyMsg.Filter) (s : String)
      (m : LegacyMsg.Message), f ≠ LegacyMsg.Filter.archived → m.isArchived = true →
      m ∉ LegacyMsg.filteredMessages msgs f s) := by
  constructor
  · intro msgs
    unfold LegacyMsg.filteredMessages
    refine List.filter_congr ?_
    intro m _
    simp [LegacyMsg.matchesSearch_empty]
  · intro msgs f s m hf hm hmem
    have hp := (List.mem_filter.mp hmem).2
    cases f with
    | archived => exact hf rfl
    | all => simp [hm] at hp
    | unread => simp [hm] at hp
    | starred => simp [hm] at hp

/-- C1 witness: the amended statement evaluated on concrete messages. -/
theorem c1_witness :
    LegacyMsg.filteredMessages [unreadLegacyMsg] LegacyMsg.Filter.unread "" =
      [unreadLegacyMsg].filter (fun m => !m.isRead && !m.isArchived) ∧
    archivedLegacyMsg ∉
      LegacyMsg.filteredMessages [archivedLegacyMsg] LegacyMsg.Filter.all "" :=
  ⟨c1_unread_filter_amended.1 [unreadLegacyMsg],
   c1_unread_filter_amended.2 [archivedLegacyMsg] LegacyMsg.Filter.all ""
     archivedLegacyMsg (by decide) rfl⟩

/-- C7 counterexample: `toggleActive` stores whatever `isActive` the server's
toggle endpoint returns; when the server reports `true` for a locally active
review, the stored value is unchanged rather than the negation of the local
in-memory value. -/
theorem c7_counterexample :
    Rev.toggleActive [sampleActiveReview] "r1" true = [sampleActiveReview] ∧
    Rev.toggleActive [sampleActiveReview] "r1" true ≠
      [{ sampleActiveReview with isActive := !sampleActiveReview.isActive }] := by
  exact ⟨by decide, by decide⟩

/-- C7 amended: the message toggles (`isRead`, `isStarred`) send and store the
negation of the value held in the found local record, and the detail-panel
archive button passes the negation of the selected record's local value; the
review toggles (`isActive`, `featured`) instead delegate the flip to the
server's dedicated toggle endpoints and store whatever value the server
returns, independent of the local in-memory value. -/
theorem c7_toggle_source_amended :
    (∀ (msgs : List Msg.Message) (id : String) (m : Msg.Message),
      msgs.find? (fun r => r._id == id) = some m →
      ∀ x ∈ Msg.toggleRead msgs id, (x._id == id) = true → x.isRead = !m.isRead) ∧
    (∀ (msgs : List Msg.Message) (id : String) (m : Msg.Message),
      msgs.find? (fun r => r._id == id) = some m →
      ∀ x ∈ Msg.toggleStar msgs id, (x._id == id) = true → x.isStarred = !m.isStarred) ∧
    (∀ (msgs : List Msg.Message) (id : String) (m : Msg.Message),
      msgs.find? (fun r => r._id == id) = some m →
      ∀ x ∈ Msg.archiveToggleFromPanel msgs id, (x._id == id) = true →
        x.isArchived = !m.isArchived) ∧
    (∀ (reviews : List Rev.Review) (id : String) (v : Bool),
      ∀ x ∈ Rev.toggleActive reviews id v, (x._id == id) = true → x.isActive = v) ∧
    (∀ (reviews : List Rev.Review) (id : String) (v : Bool),
      ∀ x ∈ Rev.toggleFeatured reviews id v, (x._id == id) = true → x.featured = v) := by
  refine ⟨?_, ?_, ?_, ?_, ?_⟩
  · intro msgs id m hf x hx hid
    rw [Msg.toggleRead, hf] at hx
    rcases List.mem_map.mp hx with ⟨a, -, ha⟩
    by_cases h : (a._id == id) = true
    · rw [if_pos h] at ha
      rw [← ha]
    · rw [if_neg h] at ha
      rw [← ha] at hid
      exact absurd hid h
  · intro msgs id m hf x hx hid
    rw [Msg.toggleStar, hf] at hx
    rcases List.mem_map.mp hx with ⟨a, -, ha⟩
    by_cases h : (a._id == id) = true
    · rw [if_pos h] at ha
      rw [← ha]
    · rw [if_neg h] at ha
      rw [← ha] at hid
      exact absurd hid h
  · intro msgs id m hf x hx hid
    simp only [Msg.archiveToggleFromPanel, Msg.toggleArchive, hf] at hx
    rcases List.mem_map.mp hx with ⟨a, -, ha⟩
    by_cases h : (a._id == id) = true
    · rw [if_pos h] at ha
      rw [← ha]
    · rw [if_neg h] at ha
      rw [← ha] at hid
      exact absurd hid h
  · intro reviews id v x hx hid
    rcases List.mem_map.mp hx with ⟨a, -, ha⟩
    by_cases h : (a._id == id) = true
    · rw [if_pos h] at ha
      rw [← ha]
    · rw [if_neg h] at ha
      rw [← ha] at hid
      exact absurd hid h
  · intro reviews id v x hx hid
    rcases List.mem_map.mp hx with ⟨a, -, ha⟩
    by_cases h : (a._id == id) = true
    · rw [if_pos h] at ha
      rw [← ha]
    · rw [if_neg h] at ha
      rw [← ha] at hid
      exact absurd hid h

/-- C7 witness: the amended statement evaluated on concrete records. -/
theorem c7_witness :
    ({ sampleMsgA with isRead := !sampleMsgA.isRead } : Msg.Message).isRead =
      !sampleMsgA.isRead ∧
    ({ sampleActiveReview with isActive := false } : Rev.Review).isActive = false :=
  ⟨c7_toggle_source_amended.1 [sampleMsgA] "m1" sampleMsgA rfl
      { sampleMsgA with isRead := !sampleMsgA.isRead } (by decide) rfl,
   c7_toggle_source_amended.2.2.2.1 [sampleActiveReview] "r1" false
      { sampleActiveReview with isActive := false } (by decide) rfl⟩

/-- C4: submitting the Review form with any rating outside 1..5 or a missing
required field is rejected locally with a validation message, with no request
sent and the list unchanged; with rating 5 and all required fields present
the request is sent and the server's record is appended on success; the star
display renders 5 filled stars for rating 5. -/
theorem c4_review_validation (reviews : List Rev.Review) (f : Rev.ReviewForm)
    (server : Option Rev.Review) (nr : Rev.Review) :
    (f.rating < 1 ∨ 5 < f.rating ∨ f.name = "" ∨ f.position = "" ∨ f.text = "" ∨
        f.projectType = "" →
      (Rev.handleSubmitAdd reviews f server).1 = false ∧
      (Rev.handleSubmitAdd reviews f server).2.1 = reviews ∧
      (Rev.handleSubmitAdd reviews f server).2.2 ≠ none) ∧
    (f.rating = 5 → f.name ≠ "" → f.position ≠ "" → f.text ≠ "" →
        f.projectType ≠ "" →
      Rev.handleSubmitAdd reviews f (some nr) = (true, reviews ++ [nr], none)) ∧
    Rev.filledStars 5 = 5 := by
  refine ⟨?_, ?_, by decide⟩
  · intro h
    unfold Rev.handleSubmitAdd Rev.validateReview
    split_ifs with h1 h2
    · exact ⟨rfl, rfl, by simp⟩
    · exact ⟨rfl, rfl, by simp⟩
    · exfalso
      rcases h with h | h | h | h | h | h
      · exact h2 (Or.inl h)
      · exact h2 (Or.inr h)
      · exact h1 (Or.inl h)
      · exact h1 (Or.inr (Or.inl h))
      · exact h1 (Or.inr (Or.inr (Or.inl h)))
      · exact h1 (Or.inr (Or.inr (Or.inr h)))
  · intro h5 hn hp ht hpt
    unfold Rev.handleSubmitAdd Rev.validateReview
    rw [if_neg, if_neg]
    · rw [h5]
      omega
    · tauto

/-- C4 witness: the theorem evaluated on a rating-6 form (rejected) and a
rating-5 form (accepted and appended). -/
theorem c4_review_validation_witness :
    ((Rev.handleSubmitAdd [] rating6Form none).1 = false ∧
     (Rev.handleSubmitAdd [] rating6Form none).2.1 = [] ∧
     (Rev.handleSubmitAdd [] rating6Form none).2.2 ≠ none) ∧
    Rev.handleSubmitAdd [] rating5Form (some createdReview) =
      (true, [createdReview], none) :=
  ⟨(c4_review_validation [] rating6Form none createdReview).1
      (Or.inr (Or.inl (by decide))),
   (c4_review_validation [] rating5Form (some createdReview) createdReview).2.1
      rfl (by decide) (by decide) (by decide) (by decide)⟩

/-- Replacing matching entries in a list with no matching entry changes
nothing. -/
theorem Msg.map_update_eq_self {l : List Msg.Message} {id : String} {v : Msg.Message}
    (h : ∀ x ∈ l, (x._id == id) = false) :
    (l.map fun x => if x._id == id then v else x) = l := by
  have h2 : (l.map fun x => if x._id == id then v else x) = l.map (fun x => x) :=
    List.map_congr_left (fun a ha => by simp [h a ha])
  simpa using h2

/-- Applying an echo-style toggle twice returns the list to its start, for
any per-record update `g` that preserves the id and is itself an involution,
provided the ids in the list are distinct. -/
theorem Msg.toggleWith_involution (g : Msg.Message → Msg.Message)
    (hid : ∀ m, (g m)._id = m._id) (hgg : ∀ m, g (g m) = m)
    (messages : List Msg.Message) (id : String)
    (h : (messages.map Msg.Message._id).Nodup) :
    Msg.toggleWith g (Msg.toggleWith g messages id) id = messages := by
  induction messages with
  | nil => rfl
  | cons m rest ih =>
    rw [List.map_cons, List.nodup_cons] at h
    by_cases hm : (m._id == id) = true
    · have hrest : ∀ x ∈ rest, (x._id == id) = false := by
        intro x hx
        have hne : x._id ≠ m._id := by
          intro he
          exact h.1 (he ▸ List.mem_map_of_mem Msg.Message._id hx)
        have hmid : m._id = id := by simpa using hm
        simp [hmid ▸ hne]
      have e1 : Msg.toggleWith g (m :: rest) id = g m :: rest := by
        simp only [Msg.toggleWith, List.find?_cons, hm, cond_true,
          Msg.applyServerUpdate, List.map_cons, if_pos hm]
        rw [Msg.map_update_eq_self hrest]
        simp
      have hgmid : ((g m)._id == id) = true := by rw [hid m]; exact hm
      have e2 : Msg.toggleWith g (g m :: rest) id = m :: rest := by
        simp only [Msg.toggleWith, List.find?_cons, hgmid, cond_true,
          Msg.applyServerUpdate, List.map_cons, if_pos hgmid, hgg]
        rw [Msg.map_update_eq_self hrest]
        simp
      rw [e1, e2]
    · have hm' : (m._id == id) = false := by simpa using hm
      have e3 : ∀ l : List Msg.Message,
          Msg.toggleWith g (m :: l) id = m :: Msg.toggleWith g l id := by
        intro l
        simp only [Msg.toggleWith, List.find?_cons, hm', cond_false]
        cases hfl : l.find? (fun x => x._id == id) with
        | none => rfl
        | some t =>
          simp only [Msg.applyServerUpdate, List.map_cons, if_neg hm]
      rw [e3, e3, ih h.2]

/-- A purely local per-record flip applied twice is the identity, for any
per-record update `g` preserving the id and involutive (legacy panel shape). -/
theorem LegacyMsg.mapIf_involution (g : LegacyMsg.Message → LegacyMsg.Message)
    (hid : ∀ m, (g m).id = m.id) (hgg : ∀ m, g (g m) = m)
    (l : List LegacyMsg.Message) (id : String) :
    ((l.map fun m => if m.id == id then g m else m).map
      fun m => if m.id == id then g m else m) = l := by
  induction l with
  | nil => rfl
  | cons m t ih =>
    rw [List.map_cons, List.map_cons, ih]
    by_cases hm : (m.id == id) = true
    · have hgmid : ((g m).id == id) = true := by rw [hid m]; exact hm
      rw [if_pos hm, if_pos hgmid, hgg]
    · rw [if_neg hm, if_neg hm]

/-- C3: each boolean-flag toggle applied twice (with the server echoing the
requested update in the current panel, and purely locally in the legacy
panel) returns the message list to its original state; for the current panel
this requires the local ids to be distinct. -/
theorem c3_toggle_involution (messages : List Msg.Message) (id : String)
    (h : (messages.map Msg.Message._id).Nodup)
    (legacy : List LegacyMsg.Message) (lid : String) :
    Msg.toggleRead (Msg.toggleRead messages id) id = messages ∧
    Msg.toggleStar (Msg.toggleStar messages id) id = messages ∧
    Msg.archiveToggleFromPanel (Msg.archiveToggleFromPanel messages id) id = messages ∧
    LegacyMsg.toggleRead (LegacyMsg.toggleRead legacy lid) lid = legacy ∧
    LegacyMsg.toggleStar (LegacyMsg.toggleStar legacy lid) lid = legacy ∧
    LegacyMsg.toggleArchive (LegacyMsg.toggleArchive legacy lid) lid = legacy := by
  have hread : Msg.toggleRead = Msg.toggleWith (fun m => { m with isRead := !m.isRead }) := by
    funext msgs i
    simp only [Msg.toggleRead, Msg.toggleWith]
  have hstar : Msg.toggleStar = Msg.toggleWith (fun m => { m with isStarred := !m.isStarred }) := by
    funext msgs i
    simp only [Msg.toggleStar, Msg.toggleWith]
  have harch : Msg.archiveToggleFromPanel =
      Msg.toggleWith (fun m => { m with isArchived := !m.isArchived }) := by
    funext msgs i
    simp only [Msg.archiveToggleFromPanel, Msg.toggleWith]
    cases hf : msgs.find? (fun m => m._id == i) with
    | none => rfl
    | some t => simp only [Msg.toggleArchive, hf]
  refine ⟨?_, ?_, ?_, ?_, ?_, ?_⟩
  · rw [hread]
    exact Msg.toggleWith_involution (fun m => { m with isRead := !m.isRead })
      (fun m => rfl) (fun m => by simp) messages id h
  · rw [hstar]
    exact Msg.toggleWith_involution (fun m => { m with isStarred := !m.isStarred })
      (fun m => rfl) (fun m => by simp) messages id h
  · rw [harch]
    exact Msg.toggleWith_involution (fun m => { m with isArchived := !m.isArchived })
      (fun m => rfl) (fun m => by simp) messages id h
  · exact LegacyMsg.mapIf_involution (fun m => { m with isRead := !m.isRead })
      (fun m => rfl) (fun m => by simp) legacy lid
  · exact LegacyMsg.mapIf_involution (fun m => { m with isStarred := !m.isStarred })
      (fun m => rfl) (fun m => by simp) legacy lid
  · exact LegacyMsg.mapIf_involution (fun m => { m with isArchived := !m.isArchived })
      (fun m => rfl) (fun m => by simp) legacy lid

/-- C3 witness: the involution evaluated on concrete one-element lists. -/
theorem c3_toggle_involution_witness :
    Msg.toggleRead (Msg.toggleRead [sampleMsgA] "m1") "m1" = [sampleMsgA] ∧
    LegacyMsg.toggleArchive (LegacyMsg.toggleArchive [unreadLegacyMsg] "l1") "l1" =
      [unreadLegacyMsg] :=
  ⟨(c3_toggle_involution [sampleMsgA] "m1" (by simp) [unreadLegacyMsg] "l1").1,
   (c3_toggle_involution [sampleMsgA] "m1" (by simp) [unreadLegacyMsg] "l1").2.2.2.2.2⟩

/-- C5: on a 2xx DELETE the Messages panel removes exactly the records with
the deleted id and clears the selection only when it referenced that id,
raising no error; on a non-2xx response (including deletion of a
non-existent id) an error is surfaced and list and selection are untouched.
The Skills panel behaves the same on its confirmed deletes, and an
unconfirmed dialog changes nothing. -/
theorem c5_delete_atomic (msgs : List Msg.Message) (sel : Option Msg.Message)
    (id : String) (skills : List Sk.Skill) (sid : String) :
    (∀ m : Msg.Message,
      m ∈ (Msg.handleDelete msgs sel (some id) true).1 ↔ (m ∈ msgs ∧ ¬(m._id = id))) ∧
    (∀ s : Msg.Message,
      (Msg.handleDelete msgs sel (some id) true).2.1 = some s →
        sel = some s ∧ ¬(s._id = id)) ∧
    (Msg.handleDelete msgs sel (some id) true).2.2 = false ∧
    Msg.handleDelete msgs sel (some id) false = (msgs, sel, true) ∧
    (∀ s : Sk.Skill,
      s ∈ (Sk.handleDelete skills sid true true).1 ↔ (s ∈ skills ∧ ¬(s._id = sid))) ∧
    Sk.handleDelete skills sid true false = (skills, true) ∧
    (∀ r : Bool, Sk.handleDelete skills sid false r = (skills, false)) := by
  refine ⟨?_, ?_, rfl, rfl, ?_, rfl, fun r => rfl⟩
  · intro m
    simp [Msg.handleDelete, List.mem_filter]
  · intro s hs
    simp only [Msg.handleDelete, if_pos] at hs
    cases sel with
    | none => simp at hs
    | some sel0 =>
      have hs' : (if (sel0._id == id) = true then none else some sel0) = some s := hs
      by_cases h0 : (sel0._id == id) = true
      · rw [if_pos h0] at hs'
        exact absurd hs' (by simp)
      · rw [if_neg h0] at hs'
        cases hs'
        exact ⟨rfl, by simpa using h0⟩
  · intro s
    simp [Sk.handleDelete, List.mem_filter]

/-- C5 witness: the theorem evaluated on concrete one-element collections,
with both a matching and a non-matching pending id. -/
theorem c5_delete_atomic_witness :
    (sampleMsgA ∈ (Msg.handleDelete [sampleMsgA] (some sampleMsgA) (some "m1") true).1 ↔
      (sampleMsgA ∈ [sampleMsgA] ∧ ¬(sampleMsgA._id = "m1"))) ∧
    ((some sampleMsgA : Option Msg.Message) = some sampleMsgA ∧
      ¬(sampleMsgA._id = "zz")) ∧
    Msg.handleDelete [sampleMsgA] (some sampleMsgA) (some "m1") false =
      ([sampleMsgA], some sampleMsgA, true) ∧
    Sk.handleDelete [skillA] "a" true false = ([skillA], true) :=
  ⟨(c5_delete_atomic [sampleMsgA] (some sampleMsgA) "m1" [skillA] "a").1 sampleMsgA,
   (c5_delete_atomic [sampleMsgA] (some sampleMsgA) "zz" [skillA] "a").2.1
     sampleMsgA (by decide),
   (c5_delete_atomic [sampleMsgA] (some sampleMsgA) "m1" [skillA] "a").2.2.2.1,
   (c5_delete_atomic [sampleMsgA] (some sampleMsgA) "m1" [skillA] "a").2.2.2.2.2.1⟩

/-- Mapping the sort key over an ordered insertion of skills is an ordered
insertion of the key into the mapped list. -/
theorem Sk.map_order_orderedInsert (x : Sk.Skill) (l : List Sk.Skill) :
    (List.orderedInsert (fun a b => a.order ≤ b.order) x l).map Sk.Skill.order =
      List.orderedInsert (· ≤ ·) x.order (l.map Sk.Skill.order) := by
  induction l with
  | nil => rfl
  | cons b t ih =>
    by_cases hle : x.order ≤ b.order
    · simp [List.orderedInsert, hle]
    · simp [List.orderedInsert, hle, ih]

/-- Mapping the sort key over the skill sort is the sort of the mapped keys. -/
theorem Sk.map_order_sortSkills (l : List Sk.Skill) :
    (Sk.sortSkills l).map Sk.Skill.order =
      List.insertionSort (· ≤ ·) (l.map Sk.Skill.order) := by
  induction l with
  | nil => rfl
  | cons b t ih =>
    simp only [Sk.sortSkills, List.insertionSort] at *
    rw [Sk.map_order_orderedInsert, ih]

/-- Sorting a list of naturals that is a permutation of `range n` yields
exactly `range n`. -/
theorem insertionSort_eq_range {m : List ℕ} {n : ℕ} (h : m.Perm (List.range n)) :
    List.insertionSort (fun a b => a ≤ b) m = List.range n :=
  List.eq_of_perm_of_sorted ((List.perm_insertionSort _ m).trans h)
    (List.sorted_insertionSort _ m) (List.sorted_le_range n)

/-- Swapping two adjacent entries of a list by double `set` is a permutation. -/
theorem set_swap_succ_perm :
    ∀ (k : ℕ) (l : List ℕ) (hk : k + 1 < l.length),
      ((l.set k (l.get ⟨k + 1, hk⟩)).set (k + 1)
        (l.get ⟨k, by omega⟩)).Perm l := by
  intro k
  induction k with
  | zero =>
    intro l hk
    match l, hk with
    | x :: y :: t, _ =>
      simp only [List.get, List.set_cons_zero, List.set_cons_succ]
      exact List.Perm.swap x y t
  | succ k ih =>
    intro l hk
    match l, hk with
    | x :: t, hk =>
      have ht : k + 1 < t.length := by
        simpa using hk
      simp only [List.get, List.set_cons_succ]
      exact List.Perm.cons x (ih t ht)

/-- Swapping the entries at two adjacent positions of `range n` produces a
permutation of `range n`. -/
theorem range_swap_perm (n ci ni : ℕ) (hc : ci < n) (hn : ni < n)
    (hadj : ni = ci + 1 ∨ ci = ni + 1) :
    (((List.range n).set ci ni).set ni ci).Perm (List.range n) := by
  rcases hadj with hadj | hadj
  · subst hadj
    have hk : ci + 1 < (List.range n).length := by simpa using hn
    have := set_swap_succ_perm ci (List.range n) hk
    simpa using this
  · subst hadj
    have hk : ni + 1 < (List.range n).length := by simpa using hc
    have := set_swap_succ_perm ni (List.range n) hk
    simp only [List.get_eq_getElem, List.getElem_range] at this ⊢
    rw [List.set_comm _ _ _ (by omega)]
    exact this

/-- When the orders are dense and positional, the record at index `i` has
order `i`. -/
theorem Sk.order_getElem (skills : List Sk.Skill)
    (h : skills.map Sk.Skill.order = List.range skills.length)
    (i : ℕ) (hi : i < skills.length) : (skills.get ⟨i, hi⟩).order = i := by
  have hb : i < (skills.map Sk.Skill.order).length := by simpa using hi
  have h1 : (skills.map Sk.Skill.order)[i] = i := by
    rw [List.getElem_of_eq h hb]
    exact List.getElem_range i _
  simpa using h1

/-- Re-sorting after swapping the `order` fields of two adjacent records of a
dense positional list restores a dense positional list of the same length. -/
theorem Sk.sorted_swap_spec (skills : List Sk.Skill) (ci ni : ℕ)
    (hc : ci < skills.length) (hn : ni < skills.length)
    (hadj : ni = ci + 1 ∨ ci = ni + 1)
    (h : skills.map Sk.Skill.order = List.range skills.length) :
    (Sk.sortSkills ((skills.set ci
        { skills.get ⟨ci, hc⟩ with order := (skills.get ⟨ni, hn⟩).order }).set ni
        { skills.get ⟨ni, hn⟩ with order := (skills.get ⟨ci, hc⟩).order })).map
        Sk.Skill.order = List.range skills.length ∧
    (Sk.sortSkills ((skills.set ci
        { skills.get ⟨ci, hc⟩ with order := (skills.get ⟨ni, hn⟩).order }).set ni
        { skills.get ⟨ni, hn⟩ with order := (skills.get ⟨ci, hc⟩).order })).length =
      skills.length := by
  have hmap : ((skills.set ci
      { skills.get ⟨ci, hc⟩ with order := (skills.get ⟨ni, hn⟩).order }).set ni
      { skills.get ⟨ni, hn⟩ with order := (skills.get ⟨ci, hc⟩).order }).map
      Sk.Skill.order = ((List.range skills.length).set ci ni).set ni ci := by
    rw [List.map_set, List.map_set, h, Sk.order_getElem skills h ci hc,
      Sk.order_getElem skills h ni hn]
  have hperm : (((skills.set ci
      { skills.get ⟨ci, hc⟩ with order := (skills.get ⟨ni, hn⟩).order }).set ni
      { skills.get ⟨ni, hn⟩ with order := (skills.get ⟨ci, hc⟩).order }).map
      Sk.Skill.order).Perm (List.range skills.length) := by
    rw [hmap]
    exact range_swap_perm skills.length ci ni hc hn hadj
  refine ⟨?_, ?_⟩
  · rw [Sk.map_order_sortSkills]
    exact insertionSort_eq_range hperm
  · rw [Sk.sortSkills,
      (List.perm_insertionSort (fun a b : Sk.Skill => a.order ≤ b.order)
        ((skills.set ci
          { skills.get ⟨ci, hc⟩ with order := (skills.get ⟨ni, hn⟩).order }).set ni
          { skills.get ⟨ni, hn⟩ with order := (skills.get ⟨ci, hc⟩).order })).length_eq]
    simp

/-- When `moveSkillCore` produces a list, that list is dense and positional
again (given the input was), with unchanged length. -/
theorem Sk.moveSkillCore_spec (skills : List Sk.Skill) (id : String)
    (dir : Sk.Direction) (l : List Sk.Skill)
    (hl : Sk.moveSkillCore skills id dir = some l)
    (h : skills.map Sk.Skill.order = List.range skills.length) :
    l.map Sk.Skill.order = List.range skills.length ∧ l.length = skills.length := by
  cases dir with
  | up =>
    simp only [Sk.moveSkillCore] at hl
    split at hl
    · split at hl
      · next hn =>
        obtain rfl := Option.some.inj hl
        exact Sk.sorted_swap_spec skills _ _ (by assumption) (by omega)
          (Or.inr (by omega)) h
      · exact absurd hl (by simp)
    · exact absurd hl (by simp)
  | down =>
    simp only [Sk.moveSkillCore] at hl
    split at hl
    · split at hl
      · next hn =>
        obtain rfl := Option.some.inj hl
        exact Sk.sorted_swap_spec skills _ _ (by assumption) (by omega)
          (Or.inl (by omega)) h
      · exact absurd hl (by simp)
    · exact absurd hl (by simp)

/-- Reassigning orders by position with the two adjacent positions exchanged
(legacy variant) yields exactly the swapped `range` as order sequence. -/
theorem Sk.mapIdx_swap_map_order (skills : List Sk.Skill) (ci ni : ℕ)
    (hne : ci ≠ ni) (hc : ci < skills.length) (hn : ni < skills.length) :
    (skills.mapIdx fun index skill =>
        { skill with
          order := if index = ci then ni else if index = ni then ci else index }).map
        Sk.Skill.order = ((List.range skills.length).set ci ni).set ni ci := by
  apply List.ext_getElem
  · simp
  · intro k h1 h2
    simp only [List.getElem_map, List.getElem_mapIdx, List.getElem_set,
      List.getElem_range]
    by_cases hkc : k = ci
    · subst hkc
      rw [if_pos rfl, if_neg (fun he => hne he.symm), if_pos rfl]
    · by_cases hkn : k = ni
      · subst hkn
        rw [if_neg hkc, if_pos rfl, if_pos rfl]
      · rw [if_neg hkc, if_neg hkn, if_neg (fun he => hkn he.symm),
          if_neg (fun he => hkc he.symm)]

/-- As `Sk.moveSkillCore_spec`, for the commented-out legacy variant; here
density of the output needs no assumption on the input orders, since the
legacy variant reassigns every order from the array position. -/
theorem Sk.moveSkillCoreLegacy_spec (skills : List Sk.Skill) (id : String)
    (dir : Sk.Direction) (l : List Sk.Skill)
    (hl : Sk.moveSkillCoreLegacy skills id dir = some l) :
    l.map Sk.Skill.order = List.range skills.length ∧ l.length = skills.length := by
  have main : ∀ (ci ni : ℕ), ci ≠ ni → ci < skills.length → ni < skills.length →
      (ni = ci + 1 ∨ ci = ni + 1) →
      ((Sk.sortSkills (skills.mapIdx fun index skill =>
        { skill with
          order := if index = ci then ni else if index = ni then ci else index })).map
        Sk.Skill.order = List.range skills.length ∧
       (Sk.sortSkills (skills.mapIdx fun index skill =>
        { skill with
          order := if index = ci then ni else if index = ni then ci else index })).length =
        skills.length) := by
    intro ci ni hne hc hn hadj
    have hperm : ((skills.mapIdx fun index skill =>
        { skill with
          order := if index = ci then ni else if index = ni then ci else index }).map
        Sk.Skill.order).Perm (List.range skills.length) := by
      rw [Sk.mapIdx_swap_map_order skills ci ni hne hc hn]
      exact range_swap_perm skills.length ci ni hc hn hadj
    refine ⟨?_, ?_⟩
    · rw [Sk.map_order_sortSkills]
      exact insertionSort_eq_range hperm
    · rw [Sk.sortSkills,
        (List.perm_insertionSort (fun a b : Sk.Skill => a.order ≤ b.order)
          (skills.mapIdx fun index skill =>
            { skill with
              order := if index = ci then ni else if index = ni then ci else index })).length_eq]
      simp
  cases dir with
  | up =>
    simp only [Sk.moveSkillCoreLegacy] at hl
    split at hl
    · split at hl
      · next hn =>
        obtain rfl := Option.some.inj hl
        exact main _ _ (by omega) (by assumption) (by omega) (Or.inr (by omega))
      · exact absurd hl (by simp)
    · exact absurd hl (by simp)
  | down =>
    simp only [Sk.moveSkillCoreLegacy] at hl
    split at hl
    · split at hl
      · next hn =>
        obtain rfl := Option.some.inj hl
        exact main _ _ (by omega) (by assumption) (by omega) (Or.inl (by omega))
      · exact absurd hl (by simp)
    · exact absurd hl (by simp)

/-- C2: starting from a skills list whose `order` fields are the dense
sequence 0..N-1 in array order, `moveSkill` (either direction, any id, in
both the current and the legacy commented-out implementation) produces a
local list of the same length whose `order` fields are again exactly
0..N-1 in the new array order. -/
theorem c2_reorder_dense (skills : List Sk.Skill) (id : String) (dir : Sk.Direction)
    (h : skills.map Sk.Skill.order = List.range skills.length) :
    ((Sk.moveSkillLocal skills id dir).length = skills.length ∧
     (Sk.moveSkillLocal skills id dir).map Sk.Skill.order =
       List.range skills.length) ∧
    ((Sk.moveSkillLocalLegacy skills id dir).length = skills.length ∧
     (Sk.moveSkillLocalLegacy skills id dir).map Sk.Skill.order =
       List.range skills.length) := by
  constructor
  · rcases hx : Sk.moveSkillCore skills id dir with _ | l
    · rw [Sk.moveSkillLocal, hx]
      exact ⟨rfl, h⟩
    · have hs := Sk.moveSkillCore_spec skills id dir l hx h
      rw [Sk.moveSkillLocal, hx]
      exact ⟨hs.2, hs.1⟩
  · rcases hx : Sk.moveSkillCoreLegacy skills id dir with _ | l
    · rw [Sk.moveSkillLocalLegacy, hx]
      exact ⟨rfl, h⟩
    · have hs := Sk.moveSkillCoreLegacy_spec skills id dir l hx
      rw [Sk.moveSkillLocalLegacy, hx]
      exact ⟨hs.2, hs.1⟩

/-- C2 witness: moving the middle of three dense skills up keeps the orders
dense 0..2 in both implementations. -/
theorem c2_reorder_dense_witness :
    (Sk.moveSkillLocal [skillA, skillB, skillC] "b" Sk.Direction.up).map
      Sk.Skill.order = List.range 3 ∧
    (Sk.moveSkillLocalLegacy [skillA, skillB, skillC] "b" Sk.Direction.up).map
      Sk.Skill.order = List.range 3 :=
  ⟨(c2_reorder_dense [skillA, skillB, skillC] "b" Sk.Direction.up (by decide)).1.2,
   (c2_reorder_dense [skillA, skillB, skillC] "b" Sk.Direction.up (by decide)).2.2⟩

/-- The last element reported by `getLast?` is a member of the list. -/
theorem mem_of_getLast?_eq (l : List Sk.Skill) (x : Sk.Skill)
    (h : l.getLast? = some x) : x ∈ l := by
  induction l with
  | nil => simp at h
  | cons a t ih =>
    cases t with
    | nil =>
      simp at h
      simp [h]
    | cons b u =>
      rw [List.getLast?_cons_cons] at h
      exact List.mem_cons_of_mem a (ih h)

/-- With distinct ids, the id of the last element is found at the last
index. -/
theorem Sk.findIdx_of_getLast (skills : List Sk.Skill) (x : Sk.Skill)
    (hx : skills.getLast? = some x)
    (hnd : (skills.map Sk.Skill._id).Nodup) :
    skills.findIdx (fun s => s._id == x._id) = skills.length - 1 := by
  induction skills with
  | nil => simp at hx
  | cons a t ih =>
    cases t with
    | nil =>
      have : a = x := by simpa using hx
      subst this
      simp [List.findIdx_cons]
    | cons b u =>
      rw [List.getLast?_cons_cons] at hx
      rw [List.map_cons, List.nodup_cons] at hnd
      have hm : x ∈ b :: u := mem_of_getLast?_eq (b :: u) x hx
      have hne : (a._id == x._id) = false := by
        have : a._id ≠ x._id := by
          intro he
          exact hnd.1 (he ▸ List.mem_map_of_mem Sk.Skill._id hm)
        simpa using this
      rw [List.findIdx_cons, hne, cond_false, ih hx hnd.2]
      simp

/-- The id of a list's head is found at index 0. -/
theorem Sk.findIdx_head (x : Sk.Skill) (t : List Sk.Skill) :
    (x :: t).findIdx (fun s => s._id == x._id) = 0 := by
  simp [List.findIdx_cons]

/-- An id matching no element is "found" past the end of the list. -/
theorem Sk.findIdx_of_absent (skills : List Sk.Skill) (id : String)
    (h : ∀ s ∈ skills, ¬(s._id = id)) :
    skills.findIdx (fun s => s._id == id) = skills.length :=
  List.findIdx_eq_length.mpr (fun s hs => by simpa using h s hs)

/-- `moveSkillCore` bails out whenever the found index would move outside
the list or the id is absent. -/
theorem Sk.moveSkillCore_eq_none (skills : List Sk.Skill) (id : String)
    (dir : Sk.Direction)
    (h : ¬(skills.findIdx (fun s => s._id == id) < skills.length) ∨
      (dir = Sk.Direction.up ∧ skills.findIdx (fun s => s._id == id) = 0) ∨
      (dir = Sk.Direction.down ∧
        skills.findIdx (fun s => s._id == id) + 1 = skills.length)) :
    Sk.moveSkillCore skills id dir = none := by
  rcases h with h | ⟨rfl, h⟩ | ⟨rfl, h⟩
  · simp only [Sk.moveSkillCore]
    rw [dif_neg h]
  · simp only [Sk.moveSkillCore]
    by_cases hc : skills.findIdx (fun s => s._id == id) < skills.length
    · rw [dif_pos hc, dif_neg (by omega)]
    · rw [dif_neg hc]
  · simp only [Sk.moveSkillCore]
    by_cases hc : skills.findIdx (fun s => s._id == id) < skills.length
    · rw [dif_pos hc, dif_neg (by omega)]
    · rw [dif_neg hc]

/-- C10: with distinct ids, `moveSkill` called with `up` on the first
element, with `down` on the last element, or with an absent id leaves the
local skills list unchanged and posts no reorder request. -/
theorem c10_boundary_noop (skills : List Sk.Skill)
    (hnd : (skills.map Sk.Skill._id).Nodup) :
    (∀ (x : Sk.Skill) (t : List Sk.Skill), skills = x :: t →
      Sk.moveSkillLocal skills x._id Sk.Direction.up = skills ∧
      Sk.moveSkillRequest skills x._id Sk.Direction.up = none) ∧
    (∀ x : Sk.Skill, skills.getLast? = some x →
      Sk.moveSkillLocal skills x._id Sk.Direction.down = skills ∧
      Sk.moveSkillRequest skills x._id Sk.Direction.down = none) ∧
    (∀ id : String, (∀ s ∈ skills, ¬(s._id = id)) → ∀ dir : Sk.Direction,
      Sk.moveSkillLocal skills id dir = skills ∧
      Sk.moveSkillRequest skills id dir = none) := by
  refine ⟨?_, ?_, ?_⟩
  · intro x t hskills
    have hcore : Sk.moveSkillCore skills x._id Sk.Direction.up = none := by
      apply Sk.moveSkillCore_eq_none
      refine Or.inr (Or.inl ⟨rfl, ?_⟩)
      rw [hskills]
      exact Sk.findIdx_head x t
    rw [Sk.moveSkillLocal, Sk.moveSkillRequest, hcore]
    exact ⟨rfl, rfl⟩
  · intro x hx
    have hne : skills ≠ [] := by
      intro he
      rw [he] at hx
      simp at hx
    have hlen : 0 < skills.length := List.length_pos.mpr hne
    have hcore : Sk.moveSkillCore skills x._id Sk.Direction.down = none := by
      apply Sk.moveSkillCore_eq_none
      refine Or.inr (Or.inr ⟨rfl, ?_⟩)
      rw [Sk.findIdx_of_getLast skills x hx hnd]
      omega
    rw [Sk.moveSkillLocal, Sk.moveSkillRequest, hcore]
    exact ⟨rfl, rfl⟩
  · intro id hid dir
    have hcore : Sk.moveSkillCore skills id dir = none := by
      apply Sk.moveSkillCore_eq_none
      refine Or.inl ?_
      rw [Sk.findIdx_of_absent skills id hid]
      omega
    rw [Sk.moveSkillLocal, Sk.moveSkillRequest, hcore]
    exact ⟨rfl, rfl⟩

/-- C10 witness: the three boundary no-ops on a concrete two-element list. -/
theorem c10_boundary_noop_witness :
    (Sk.moveSkillLocal [skillA, skillB] "a" Sk.Direction.up = [skillA, skillB] ∧
     Sk.moveSkillRequest [skillA, skillB] "a" Sk.Direction.up = none) ∧
    (Sk.moveSkillLocal [skillA, skillB] "b" Sk.Direction.down = [skillA, skillB] ∧
     Sk.moveSkillRequest [skillA, skillB] "b" Sk.Direction.down = none) ∧
    (Sk.moveSkillLocal [skillA, skillB] "zz" Sk.Direction.down = [skillA, skillB] ∧
     Sk.moveSkillRequest [skillA, skillB] "zz" Sk.Direction.down = none) :=
  ⟨(c10_boundary_noop [skillA, skillB] (by decide)).1 skillA [skillB] rfl,
   (c10_boundary_noop [skillA, skillB] (by decide)).2.1 skillB (by decide),
   (c10_boundary_noop [skillA, skillB] (by decide)).2.2 "zz" (by decide)
     Sk.Direction.down⟩

/-- C8 counterexample: after an effective move, a non-2xx reorder response is
never detected (`response.ok` is not checked), so the local list stays the
optimistically moved list and no rollback re-fetch happens, even though the
request failed. -/
theorem c8_counterexample :
    Sk.moveSkill [skillA, skillB] "a" Sk.Direction.down
        (FetchOutcome.response false none) [skillA, skillB] =
      ([{ skillB with order := 0 }, { skillA with order := 1 }], false) ∧
    ([{ skillB with order := 0 }, { skillA with order := 1 }] : List Sk.Skill) ≠
      [skillA, skillB] := by
  exact ⟨by decide, by decide⟩

/-- C8 amended: the local list is updated to the moved list immediately, and
stays that way for every completed HTTP response regardless of its status
(no `response.ok` check); the rollback re-fetch happens only when the fetch
itself rejects (network error); when the early returns fire nothing is
posted and nothing changes. -/
theorem c8_reorder_rollback_amended (skills : List Sk.Skill) (id : String)
    (dir : Sk.Direction) (serverSkills : List Sk.Skill) (l : List Sk.Skill) :
    (∀ (ok : Bool) (body : Option Unit),
      Sk.moveSkill skills id dir (FetchOutcome.response ok body) serverSkills =
        (Sk.moveSkillLocal skills id dir, false)) ∧
    (Sk.moveSkillCore skills id dir = some l →
      Sk.moveSkill skills id dir FetchOutcome.networkError serverSkills =
        (serverSkills, true)) ∧
    (Sk.moveSkillCore skills id dir = none →
      ∀ o : FetchOutcome Unit,
        Sk.moveSkill skills id dir o serverSkills = (skills, false)) := by
  refine ⟨?_, ?_, ?_⟩
  · intro ok body
    rcases hx : Sk.moveSkillCore skills id dir with _ | nl
    · rw [Sk.moveSkill, Sk.moveSkillLocal, hx]
      rfl
    · rw [Sk.moveSkill, Sk.moveSkillLocal, hx]
      rfl
  · intro hx
    rw [Sk.moveSkill, hx]
  · intro hx o
    rw [Sk.moveSkill, hx]

/-- C8 witness: the amended statement on a concrete two-element list with an
effective move and with an absent id. -/
theorem c8_reorder_rollback_witness :
    Sk.moveSkill [skillA, skillB] "a" Sk.Direction.down
        (FetchOutcome.response true (some ())) [skillA, skillB] =
      (Sk.moveSkillLocal [skillA, skillB] "a" Sk.Direction.down, false) ∧
    Sk.moveSkill [skillA, skillB] "a" Sk.Direction.down
        FetchOutcome.networkError [skillA, skillB] = ([skillA, skillB], true) ∧
    Sk.moveSkill [skillA, skillB] "zz" Sk.Direction.down
        FetchOutcome.networkError [skillA, skillB] = ([skillA, skillB], false) :=
  ⟨(c8_reorder_rollback_amended [skillA, skillB] "a" Sk.Direction.down
      [skillA, skillB] []).1 true (some ()),
   (c8_reorder_rollback_amended [skillA, skillB] "a" Sk.Direction.down
      [skillA, skillB]
      [{ skillB with order := 0 }, { skillA with order := 1 }]).2.1 (by decide),
   (c8_reorder_rollback_amended [skillA, skillB] "zz" Sk.Direction.down
      [skillA, skillB] []).2.2 (by decide) FetchOutcome.networkError⟩
